import Mathlib

/-!
Shallow embedding of the sysprobe-llm probe-execution pipeline.

Go strings are modelled as Lean `String` (a sequence of Unicode code
points); Go `len(s)` (the UTF-8 byte length) is modelled by `golen`,
which sums the UTF-8 sizes of the characters.  Byte slicing
(`s[:n]`, used only by the byte-truncation stage) is modelled by
`takeBytes`, which keeps the longest character prefix of total UTF-8
size at most `n`; this agrees with Go except when the cut would split
a single multi-byte rune, a case no claim depends on.

External collaborators are abstracted as parameters, never stubbed to
constants: binary resolution on the search path (Go `exec.LookPath`)
is a function `String → Bool`; subprocess execution is a function
`Task → ExecOutcome`; Go `time.Duration.String` formatting is a
function `Nat → String`; the tiktoken token counter is an
`Option (String → Nat)` (`none` models `NewTokenCounter` failing).
Unicode case mappings (`strings.ToLower`, `strings.Title`,
`unicode.IsSpace`) are modelled exactly on the ASCII range plus the
white-space table; every string the repository feeds them is ASCII.
-/

namespace SysProbe

/-- UTF-8 byte length of a character list, mirroring Go `len` on strings. -/
def utf8Len (l : List Char) : Nat := (l.map Char.utf8Size).sum

/-- Go `len(s)` for a string: its UTF-8 byte length. -/
def golen (s : String) : Nat := utf8Len s.data

/-- Go `s[:n]` byte slicing: longest char prefix of total UTF-8 size ≤ n.
(Agrees with Go whenever the cut does not split a multi-byte rune.) -/
def takeBytes : Nat → List Char → List Char
  | _, [] => []
  | n, c :: cs => if c.utf8Size ≤ n then c :: takeBytes (n - c.utf8Size) cs else []

/-- Go `string(rune(n))`: the code point `n`, or U+FFFD when `n` is not a
valid code point. -/
def goRune (n : Nat) : Char :=
  if n.isValidChar then Char.ofNat n else '�'

/-- Go `strings.Split(s, "\n")`: the fields between newlines, empty fields
kept; the empty string yields one empty field. -/
def splitNl : List Char → List (List Char)
  | [] => [[]]
  | c :: cs =>
    match splitNl cs with
    | [] => [[]]
    | f :: rest => if c = '\n' then [] :: f :: rest else (c :: f) :: rest

/-- Go `strings.Join(fields, "\n")`. -/
def joinNl : List (List Char) → List Char
  | [] => []
  | [f] => f
  | f :: fs => f ++ '\n' :: joinNl fs

/-- Go `unicode.IsSpace`: the White_Space code points. -/
def goIsSpace (c : Char) : Bool :=
  let n := c.toNat
  (0x09 ≤ n ∧ n ≤ 0x0D) ∨ n = 0x20 ∨ n = 0x85 ∨ n = 0xA0 ∨ n = 0x1680 ∨
  (0x2000 ≤ n ∧ n ≤ 0x200A) ∨ n = 0x2028 ∨ n = 0x2029 ∨ n = 0x202F ∨
  n = 0x205F ∨ n = 0x3000

/-- Go `strings.TrimSpace`: drop leading and trailing white space. -/
def trimSpace (l : List Char) : List Char :=
  ((l.dropWhile goIsSpace).reverse.dropWhile goIsSpace).reverse

/-- Go `strings.ToLower` restricted to the ASCII letters (all strings the
repository lowercases are ASCII). -/
def goToLowerChar (c : Char) : Char :=
  if 'A' ≤ c ∧ c ≤ 'Z' then Char.ofNat (c.toNat + 32) else c

/-- Go `strings.ToLower` of a string. -/
def goToLower (s : String) : String := ⟨s.data.map goToLowerChar⟩

/-- Go `unicode.ToTitle` restricted to the ASCII letters. -/
def goToTitleChar (c : Char) : Char :=
  if 'a' ≤ c ∧ c ≤ 'z' then Char.ofNat (c.toNat - 32) else c

/-- Word separator for Go `strings.Title`: in the ASCII range, everything
except letters, digits and underscore (non-ASCII treated as separator; the
repository's category names are ASCII). -/
def goIsSeparator (c : Char) : Bool :=
  if c.toNat ≤ 0x7F then
    !(('0' ≤ c ∧ c ≤ '9') ∨ ('a' ≤ c ∧ c ≤ 'z') ∨ ('A' ≤ c ∧ c ≤ 'Z') ∨ c = '_')
  else true

/-- Core of Go `strings.Title`: title-case a character that follows a
separator, carrying the previous character (initially a space). -/
def goTitleAux : Char → List Char → List Char
  | _, [] => []
  | prev, c :: cs => (if goIsSeparator prev then goToTitleChar c else c) :: goTitleAux c cs

/-- Go `strings.Title`: upper-case the first letter of each word, leaving
all other characters untouched. -/
def goTitle (s : String) : String := ⟨goTitleAux ' ' s.data⟩

/-- Character-list version of Go `strings.HasPrefix`. -/
def hasPrefixChars : List Char → List Char → Bool
  | [], _ => true
  | _ :: _, [] => false
  | a :: as, b :: bs => a = b && hasPrefixChars as bs

/-- Character-list version of Go `strings.Contains sub s`: `sub` occurs
contiguously in `s` (the empty string occurs in everything). -/
def containsChars (sub : List Char) : List Char → Bool
  | [] => hasPrefixChars sub []
  | c :: cs => hasPrefixChars sub (c :: cs) || containsChars sub cs

/-- Go `strings.Contains(s, sub)`. -/
def strContains (s sub : String) : Bool := containsChars sub.data s.data

/-- Go `strings.Join(elems, sep)`. -/
def joinSep (sep : String) : List String → String
  | [] => ""
  | [x] => x
  | x :: xs => x ++ sep ++ joinSep sep xs

/-! ## Data model (src/internal/probe/types.go, src/internal/platform/detector.go) -/

/-- `probe.Status`: execution status of a task. -/
inductive Status where
  | Pending
  | Running
  | Success
  | Skipped
  | Failed
deriving DecidableEq

/-- `probe.Task`: a single diagnostic command.  `MaxLines`/`MaxBytes` are Go
`int` (modelled as `Int`; non-positive means "use the default"). -/
structure Task where
  Name : String
  Command : String
  Privilege : String
  MaxLines : Int
  MaxBytes : Int
  Requires : List String
  Tags : List String
  Category : String
deriving DecidableEq

/-- `probe.Profile`: a collection of tasks for a platform. -/
structure Profile where
  Name : String
  Description : String
  Platform : String
  Tasks : List Task
deriving DecidableEq

/-- `probe.TaskResult`: outcome of executing a task.  `Duration` (Go
`time.Duration`) is modelled as nanoseconds. -/
structure TaskResult where
  Name : String
  Command : String
  Category : String
  Status : Status
  Output : String
  Error : String
  Duration : Nat
  SkipReason : String
deriving DecidableEq

/-- The Go zero value of `TaskResult` (what `make([]TaskResult, n)` fills
with: empty strings, `StatusPending`, 0). -/
def emptyResult : TaskResult :=
  { Name := "", Command := "", Category := "", Status := .Pending,
    Output := "", Error := "", Duration := 0, SkipReason := "" }

instance : Inhabited TaskResult := ⟨emptyResult⟩

/-- The Go zero value of `Task`. -/
def emptyTask : Task :=
  { Name := "", Command := "", Privilege := "", MaxLines := 0, MaxBytes := 0,
    Requires := [], Tags := [], Category := "" }

instance : Inhabited Task := ⟨emptyTask⟩

/-- `platform.Platform`: the capability descriptor. -/
structure Platform where
  OS : String
  Distro : String
  DistroID : String
  WM : String
  IsRoot : Bool
  IsWayland : Bool
deriving DecidableEq

/-! ## Platform.MatchesTags (src/internal/platform/detector.go) -/

/-- `Platform.MatchesTags`: the platform matches any of the given tags; an
empty tag list matches.  Each tag is lowercased and dispatched through the
source's switch; a non-matching case falls through to the next tag. -/
def MatchesTags (p : Platform) (tags : List String) : Bool :=
  if tags.isEmpty then true
  else tags.any fun tag0 =>
    let tag := goToLower tag0
    if tag = "wayland" then p.IsWayland
    else if tag = "x11" then !p.IsWayland && !(p.WM = "")
    else if tag = "hyprland" then strContains p.WM "hyprland"
    else if tag = "sway" then strContains p.WM "sway"
    else if tag = "gnome" then strContains p.WM "gnome"
    else if tag = "kde" ∨ tag = "plasma" then
      strContains p.WM "kde" || strContains p.WM "plasma"
    else strContains p.Distro tag || strContains p.WM tag

/-! ## Output truncation (src/internal/probe/types.go) -/

def DefaultMaxLines : Nat := 500
def DefaultMaxBytes : Nat := 64 * 1024

/-- The `if bound <= 0 then default` normalisation at the top of
`truncateOutput`. -/
def effBound (v : Int) (dflt : Nat) : Nat := if v ≤ 0 then dflt else v.toNat

/-- The `for n := b/unit; n >= unit; n /= unit` loop of `formatBytes`,
embedded with `n` itself as fuel (the loop strictly shrinks `n`, so `n`
iterations always suffice). -/
def fbGo : Nat → Nat → Nat → Nat → Nat × Nat
  | 0, _, div, exp => (div, exp)
  | fuel + 1, n, div, exp =>
    if 1024 ≤ n then fbGo fuel (n / 1024) (div * 1024) (exp + 1) else (div, exp)

/-- `formatBytes`: the source's human-readable byte-count formatter.  Note
that it converts numbers to text via `string(rune(x + '0'))`, which yields
a single code point, not a decimal numeral. -/
def formatBytes (b : Nat) : String :=
  if b < 1024 then ⟨[goRune (b + 48)]⟩ ++ "B"
  else
    let (div, exp) := fbGo (b / 1024) (b / 1024) 1024 0
    ⟨[goRune (b / div + 48)]⟩ ++ ⟨["KMGTPE".data.getD exp 'K']⟩ ++ "B"

/-- `truncateOutput`: byte truncation (with marker), then line truncation
(with marker), then trimming. -/
def truncateOutput (output : String) (maxLines maxBytes : Int) : String :=
  let mL := effBound maxLines DefaultMaxLines
  let mB := effBound maxBytes DefaultMaxBytes
  let o1 :=
    if mB < golen output then
      ⟨takeBytes mB output.data⟩ ++ "\n... [truncated: exceeded " ++ formatBytes mB ++ "]"
    else output
  let lines := splitNl o1.data
  let o2 :=
    if mL < lines.length then
      (⟨joinNl (lines.take mL)⟩ : String) ++ "\n... [truncated: exceeded " ++
        (⟨[goRune (mL + 48)]⟩ : String) ++ " lines]"
    else o1
  ⟨trimSpace o2.data⟩

/-! ## Runner (src/internal/probe/types.go) -/

/-- `probe.Runner`: the task runner.  `Timeout` (Go `time.Duration`) is
modelled as nanoseconds. -/
structure Runner where
  Platform : Platform
  Timeout : Nat

/-- The loop over `task.Requires` in `CanRun`: the first name the search
path cannot resolve, if any.  `res` abstracts `exec.LookPath` succeeding. -/
def firstMissing (res : String → Bool) : List String → Option String
  | [] => none
  | r :: rs => if res r then firstMissing res rs else some r

/-- `Runner.CanRun`: privilege check, then dependency check (first missing
wins), then tag check; returns eligibility with a reason. -/
def CanRun (r : Runner) (res : String → Bool) (task : Task) : Bool × String :=
  if task.Privilege = "sudo" && !r.Platform.IsRoot then
    (false, "Requires sudo privileges")
  else
    match firstMissing res task.Requires with
    | some req => (false, "Missing dependency: " ++ req)
    | none =>
      if 0 < task.Tags.length && !MatchesTags r.Platform task.Tags then
        (false, "Environment mismatch: requires " ++ joinSep " or " task.Tags)
      else (true, "")

/-- Outcome of one subprocess execution (`exec.CommandContext` + `cmd.Run()`):
the captured buffers, whether the deadline context expired, the error
returned by `cmd.Run` (`none` for a nil error), and the elapsed time. -/
structure ExecOutcome where
  stdout : String
  stderr : String
  timedOut : Bool
  errMsg : Option String
  duration : Nat
deriving DecidableEq

/-- `Runner.Run`: skip ineligible tasks without executing; otherwise run the
subprocess (abstracted by `ex`), truncate both streams, and derive the
status.  `fmtDur` abstracts Go `time.Duration.String`. -/
def Run (r : Runner) (res : String → Bool) (fmtDur : Nat → String)
    (ex : Task → ExecOutcome) (task : Task) : TaskResult :=
  let result : TaskResult :=
    { Name := task.Name, Command := task.Command, Category := task.Category,
      Status := .Pending, Output := "", Error := "", Duration := 0, SkipReason := "" }
  let (canRun, reason) := CanRun r res task
  if !canRun then
    { result with Status := .Skipped, SkipReason := reason }
  else
    let e := ex task
    let out := truncateOutput e.stdout task.MaxLines task.MaxBytes
    let errS := truncateOutput e.stderr task.MaxLines task.MaxBytes
    if e.timedOut then
      { result with
        Status := .Failed, Output := out,
        Error := "Command timed out after " ++ fmtDur r.Timeout, Duration := e.duration }
    else
      match e.errMsg with
      | some m =>
        { result with
          Status := .Failed, Output := out,
          Error := if errS = "" then m else errS, Duration := e.duration }
      | none =>
        { result with
          Status := .Success, Output := out, Error := errS,
          Duration := e.duration }

/-! ## Loader (src/unnamed/part_002, package probe) -/

/-- `Loader.matchesPlatform`: empty declared platform matches everything;
otherwise compare lowercased strings — equality, then Go
`strings.Contains(currentPlatform, profilePlatform)`, then the generic
`"linux"` name when the OS is linux. -/
def matchesPlatform (p : Platform) (profile : Profile) : Bool :=
  if profile.Platform = "" then true
  else
    let profilePlatform := goToLower profile.Platform
    let currentPlatform := goToLower p.DistroID
    if profilePlatform = currentPlatform then true
    else if strContains currentPlatform profilePlatform then true
    else if profilePlatform = "linux" && p.OS = "linux" then true
    else false

/-- `Loader.LoadAll`, with the embedded-filesystem walk abstracted to the
list of successfully parsed profiles in enumeration order: keep exactly the
profiles matching the platform. -/
def LoadAll (p : Platform) (profiles : List Profile) : List Profile :=
  profiles.filter (matchesPlatform p)

/-- `Loader.FilterTasks`: emits every task of every given profile, in
order (despite its name it filters nothing). -/
def FilterTasks (profiles : List Profile) : List Task :=
  profiles.flatMap (·.Tasks)

/-- `Loader.GetAllTasks`: tasks of all platform-matching profiles. -/
def GetAllTasks (p : Platform) (profiles : List Profile) : List Task :=
  FilterTasks (LoadAll p profiles)

/-! ## Index-addressed scheduler (src/unnamed/part_001, runWithoutUI) -/

/-- `runWithoutUI`: a pre-sized results array is filled by workers, each
claiming an index from the work queue and writing `run tasks[idx]` into
slot `idx`.  The interleaving of the workers' writes is abstracted as
`order`, the sequence in which indices are processed; the channel delivers
each index of `0..len-1` exactly once, in some order.  `run` abstracts
`Runner.Run` (its parameters are fixed for the whole pool). -/
def runWithoutUI (tasks : List Task) (run : Task → TaskResult)
    (order : List Nat) : List TaskResult :=
  order.foldl (fun results idx => results.set idx (run (tasks.getD idx emptyTask)))
    (List.replicate tasks.length emptyResult)

/-! ## Report assembler (src/unnamed/part_002, package report) -/

/-- `report.MarkdownReport`.  The `Generated time.Time` field is used only
through Go time formatting, abstracted as the two formatted strings the
source produces (`RFC3339` for the full report, `"2006-01-02T15:04"` for
the minified one). -/
structure MarkdownReport where
  Platform : Platform
  Results : List TaskResult
  GeneratedRFC3339 : String
  GeneratedShort : String

/-- Go's `<` on strings, character-list form: lexicographic comparison (Go
compares UTF-8 bytes; byte order and code-point order agree on UTF-8). -/
def lexLtChars : List Char → List Char → Bool
  | [], [] => false
  | [], _ :: _ => true
  | _ :: _, [] => false
  | a :: as, b :: bs =>
    if a.toNat < b.toNat then true
    else if b.toNat < a.toNat then false
    else lexLtChars as bs

/-- Go's `s < t` on strings. -/
def goStrLt (s t : String) : Bool := lexLtChars s.data t.data

/-- Go's `s <= t` on strings. -/
def goStrLe (s t : String) : Bool := !goStrLt t s

/-- `goStrLe` as a relation, the order `sort.Strings` sorts by. -/
def GoLe (a b : String) : Prop := goStrLe a b = true

instance : DecidableRel GoLe := fun a b => inferInstanceAs (Decidable (goStrLe a b = true))

/-- The category label of a result in `groupByCategory`: empty category
becomes `"General"`, then Go `strings.Title` is applied. -/
def catName (r : TaskResult) : String :=
  goTitle (if r.Category = "" then "General" else r.Category)

/-- The `categoryOrder` list built by `groupByCategory`'s loop: each label
is appended the first time it is seen (the map-membership test). -/
def categoryOrderOf (cats : List String) : List String :=
  cats.foldl (fun acc c => if c ∈ acc then acc else acc ++ [c]) []

/-- `groupByCategory`: labels are collected in first-occurrence order,
sorted (`sort.Strings` produces the unique sorted permutation of the
duplicate-free label list, here via insertion sort over the byte-
lexicographic order, which on UTF-8 agrees with code-point order), and
each label is paired with its results in original order (appending each
result to its label's map entry yields exactly the filter). -/
def groupByCategory (results : List TaskResult) : List (String × List TaskResult) :=
  let order := categoryOrderOf (results.map catName)
  let sorted := List.insertionSort GoLe order
  sorted.map fun n => (n, results.filter fun r => catName r = n)

/-- `strings.HasSuffix(s, "\n")`. -/
def endsWithNl (s : String) : Bool := s.data.getLast? = some '\n'

/-- `writeTaskResult`: renders one successful result (failed and skipped
results are emitted by the errors section instead). -/
def writeTaskResult (r : TaskResult) : String :=
  if r.Status = .Failed ∨ r.Status = .Skipped then ""
  else
    "\n### " ++ r.Name ++ "\n" ++ "```\n$ " ++ r.Command ++ "\n" ++
      (if r.Output = "" then "[no output]\n"
       else r.Output ++ (if endsWithNl r.Output then "" else "\n")) ++
      "```\n"

/-- The single-pass partition at the top of `writeErrorsSection`: failed
results and skipped results, each appended in encounter order. -/
def partitionES (results : List TaskResult) : List TaskResult × List TaskResult :=
  results.foldl
    (fun acc r =>
      match r.Status with
      | .Failed => (acc.1 ++ [r], acc.2)
      | .Skipped => (acc.1, acc.2 ++ [r])
      | _ => acc)
    ([], [])

/-- One `- **name**: Failed (msg)` line, the error text defaulting to
"Unknown error". -/
def failLine (r : TaskResult) : String :=
  "- **" ++ r.Name ++ "**: Failed (" ++
    (if r.Error = "" then "Unknown error" else r.Error) ++ ")\n"

/-- One `- **name**: Skipped (reason)` line, the reason defaulting to
"Unknown reason". -/
def skipLine (r : TaskResult) : String :=
  "- **" ++ r.Name ++ "**: Skipped (" ++
    (if r.SkipReason = "" then "Unknown reason" else r.SkipReason) ++ ")\n"

/-- `writeErrorsSection`: nothing when there is neither a failed nor a
skipped result; otherwise the heading, the failed lines, then the skipped
lines. -/
def writeErrorsSection (results : List TaskResult) : String :=
  let (errors, skipped) := partitionES results
  if errors.length = 0 ∧ skipped.length = 0 then ""
  else
    "\n## Errors & Skipped\n\n" ++
      String.join (errors.map failLine) ++ String.join (skipped.map skipLine)

/-- The per-category body of `generateContent`: a `## label` heading then
each of the label's results. -/
def categoriesRender (results : List TaskResult) : String :=
  String.join ((groupByCategory results).map fun g =>
    "\n## " ++ g.1 ++ "\n" ++ String.join (g.2.map writeTaskResult))

/-- `generateContent`: the category sections followed by the errors &
skipped section (no header). -/
def generateContent (rep : MarkdownReport) : String :=
  categoriesRender rep.Results ++ writeErrorsSection rep.Results

/-- `generateWithTokenCount`: the document header (title, timestamp,
platform, token count) followed by the content. -/
def generateWithTokenCount (rep : MarkdownReport) (tokenCount : Nat) : String :=
  "# SysProbe Diagnostic Report\n\n" ++
    "Generated: " ++ rep.GeneratedRFC3339 ++ "\n" ++
    "Platform: " ++ rep.Platform.DistroID ++
    (if rep.Platform.WM = "" then "" else " (" ++ rep.Platform.WM ++ ")") ++
    "\n" ++ "Token Count: " ++ Nat.repr tokenCount ++ "\n" ++
    generateContent rep

/-- `MarkdownReport.Generate`: returns (text, token count, error).  `tc`
abstracts `NewTokenCounter`: `none` when the tokenizer is unavailable, in
which case the count falls back to `len(content)/4` over the headerless
content; with a tokenizer, the document is measured, regenerated with the
count embedded, and measured once more. -/
def Generate (rep : MarkdownReport) (tc : Option (String → Nat)) :
    String × Nat × Option String :=
  let content := generateContent rep
  match tc with
  | none =>
    let tokenCount := golen content / 4
    (generateWithTokenCount rep tokenCount, tokenCount, none)
  | some count =>
    let tokenCount := count content
    let report := generateWithTokenCount rep tokenCount
    let finalTokenCount := count report
    (report, finalTokenCount, none)

/-- `MarkdownReport.GenerateMinified`: compact single pass — header line,
then every successful result with non-empty output. -/
def GenerateMinified (rep : MarkdownReport) (tc : Option (String → Nat)) :
    String × Nat × Option String :=
  let content :=
    "# SysProbe Report\n" ++
      "Time:" ++ rep.GeneratedShort ++ " Platform:" ++ rep.Platform.DistroID ++ "\n" ++
      String.join (rep.Results.map fun r =>
        if r.Status = .Success ∧ ¬r.Output = "" then
          "\n## " ++ r.Name ++ "\n```\n" ++ (⟨trimSpace r.Output.data⟩ : String) ++ "\n```\n"
        else "")
  match tc with
  | none => (content, golen content / 4, none)
  | some count => (content, count content, none)

/-- `MarkdownReport.GenerateIntro`: fixed preamble, then every successful
`"intro"`-category result with non-empty output. -/
def GenerateIntro (rep : MarkdownReport) (tc : Option (String → Nat)) :
    String × Nat × Option String :=
  let content :=
    "# System Context\n\n" ++
      "Use this information to understand my environment when helping me.\n\n" ++
      String.join (rep.Results.map fun r =>
        if r.Category = "intro" ∧ r.Status = .Success ∧ ¬r.Output = "" then
          "## " ++ r.Name ++ "\n" ++ "```\n" ++ (⟨trimSpace r.Output.data⟩ : String) ++
            "\n```\n\n"
        else "")
  match tc with
  | none => (content, golen content / 4, none)
  | some count => (content, count content, none)

/-! ## Sample values used by witnesses and counterexamples -/

/-- A non-elevated Arch Linux descriptor with no window manager. -/
def archPlat : Platform :=
  { OS := "linux", Distro := "arch", DistroID := "arch_linux", WM := "",
    IsRoot := false, IsWayland := false }

/-- A runner on `archPlat` with the default 30s timeout (in nanoseconds). -/
def runnerNR : Runner := { Platform := archPlat, Timeout := 30000000000 }

/-- A search path on which every binary resolves. -/
def resolveAll : String → Bool := fun _ => true

/-- A duration formatter mapping the default timeout to its Go rendering. -/
def fmtDur30 : Nat → String := fun _ => "30s"

/-- A task with no privilege requirement, no dependencies and no tags. -/
def tPlain : Task := { emptyTask with Name := "t", Command := "c" }

/-- A task requiring sudo. -/
def sudoTask : Task := { emptyTask with Name := "s", Privilege := "sudo" }

/-- An execution that hits the deadline with partial output on both
streams. -/
def exTimeout : Task → ExecOutcome :=
  fun _ => { stdout := "partial", stderr := "boom", timedOut := true,
             errMsg := some "signal: killed", duration := 30000000000 }

/-- A result in category "network". -/
def netResult : TaskResult := { emptyResult with Name := "n1", Category := "network" }

/-- A result in category "NETWORK". -/
def netResultUpper : TaskResult := { emptyResult with Name := "n2", Category := "NETWORK" }

/-- A report over no results. -/
def emptyRep : MarkdownReport :=
  { Platform := archPlat, Results := [], GeneratedRFC3339 := "2024-01-01T00:00:00Z",
    GeneratedShort := "2024-01-01T00:00" }

/-- A source declaring platform "nux" (a substring, but not a prefix, of
"arch_linux"). -/
def nuxProfile : Profile := { Name := "p", Description := "", Platform := "nux", Tasks := [] }

/-- A failed result with a non-empty error text. -/
def failedR : TaskResult := { emptyResult with Name := "f", Status := .Failed, Error := "err" }

/-! ## Claim theorems -/

/-- C1: the truncation boundaries and stage order behave as specified, but
the truncation markers do not cite the bounds: the source converts the
bound to text with `string(rune(bound + '0'))` (and `formatBytes`, whose
doc comment promises a human-readable byte count, does the same), so with
a per-task bound of 12 lines the marker reads `exceeded < lines` (`<` is
code point 12+48), the default 500-line bound renders as `Ȥ` (code point
548), and the default 65536-byte bound renders as `pKB` instead of 64KB. -/
theorem truncation_marker_garbled :
    truncateOutput "a\na\na\na\na\na\na\na\na\na\na\na\na" 12 0 =
      "a\na\na\na\na\na\na\na\na\na\na\na\n... [truncated: exceeded < lines]"
    ∧ formatBytes 65536 = "pKB"
    ∧ (⟨[goRune (500 + 48)]⟩ : String) = "Ȥ"
    ∧ formatBytes 65536 ≠ "64KB" := by
  refine ⟨by decide, by decide, by decide, by decide⟩

/-- C2 counterexample: results with categories "network" and "NETWORK" are
rendered as two distinct category sections ("NETWORK" and "Network"), with
inconsistent casing, because Go `strings.Title` upper-cases only the first
letter of each word and leaves "NETWORK" unchanged. -/
theorem network_categories_not_folded :
    (groupByCategory [netResult, netResultUpper]).map Prod.fst = ["NETWORK", "Network"]
    ∧ (groupByCategory [netResult, netResultUpper]).length ≠ 1 := by
  refine ⟨by decide, by decide⟩

/-- C7 counterexample: a source declaring platform "nux" is loaded for
distribution identifier "arch_linux", although "nux" is not empty, not
equal to the identifier, not a prefix of it, and not the generic "linux"
name — the source matches by substring containment anywhere, not by
prefix. -/
theorem nonPrefixSubstringLoads :
    matchesPlatform archPlat nuxProfile = true
    ∧ nuxProfile.Platform ≠ ""
    ∧ goToLower nuxProfile.Platform ≠ goToLower archPlat.DistroID
    ∧ ¬(goToLower nuxProfile.Platform).data <+: (goToLower archPlat.DistroID).data
    ∧ goToLower nuxProfile.Platform ≠ "linux" := by
  refine ⟨by decide, by decide, by decide, by decide, by decide⟩

/-- C8 counterexample: on a timed-out task the captured standard error
("boom", which the truncation policy would keep intact) is not retained:
the error field holds only the timeout message. -/
theorem timeout_discards_stderr :
    (Run runnerNR resolveAll fmtDur30 exTimeout tPlain).Error = "Command timed out after 30s"
    ∧ truncateOutput (exTimeout tPlain).stderr tPlain.MaxLines tPlain.MaxBytes = "boom"
    ∧ (Run runnerNR resolveAll fmtDur30 exTimeout tPlain).Error ≠
        truncateOutput (exTimeout tPlain).stderr tPlain.MaxLines tPlain.MaxBytes := by
  refine ⟨by decide, by decide, by decide⟩

/-- C9 counterexample: in the Full format with the tokenizer unavailable,
the returned token count is computed over the headerless content (0 for an
empty result list), not over the returned text (whose quarter-length is
24), so the count is not one token per four characters of the rendered
text. -/
theorem fullFallbackCountMismatch :
    (Generate emptyRep none).2.1 = 0
    ∧ (Generate emptyRep none).2.2 = none
    ∧ golen (Generate emptyRep none).1 / 4 = 24
    ∧ (Generate emptyRep none).2.1 ≠ golen (Generate emptyRep none).1 / 4 := by
  refine ⟨by decide, by decide, by decide, by decide⟩

/-- A non-empty string concatenated on the left stays non-empty. -/
theorem append_ne_empty_left (a b : String) (ha : a ≠ "") : a ++ b ≠ "" := by
  intro h
  apply ha
  have hd := congrArg String.data h
  rw [String.data_append] at hd
  rcases List.append_eq_nil.mp hd with ⟨h1, _⟩
  cases a
  exact congrArg String.mk h1

/-- C9, amended: with the tokenizer unavailable, all three generators
return no error and a quarter-of-byte-length estimate; for Minified and
Intro the estimate is over the returned text itself, while for Full it is
over the headerless content and the returned text additionally carries the
header embedding that estimate. -/
theorem tokenizer_fallback (rep : MarkdownReport) :
    ((GenerateMinified rep none).2.2 = none
      ∧ (GenerateMinified rep none).2.1 = golen (GenerateMinified rep none).1 / 4)
    ∧ ((GenerateIntro rep none).2.2 = none
      ∧ (GenerateIntro rep none).2.1 = golen (GenerateIntro rep none).1 / 4)
    ∧ ((Generate rep none).2.2 = none
      ∧ (Generate rep none).2.1 = golen (generateContent rep) / 4
      ∧ (Generate rep none).1 = generateWithTokenCount rep (golen (generateContent rep) / 4)) :=
  ⟨⟨rfl, rfl⟩, ⟨rfl, rfl⟩, rfl, rfl, rfl⟩

/-- C8, amended: when the subprocess of an eligible task hits the deadline,
the result is Failed, the error field holds the timeout message with the
formatted timeout duration (the captured standard error is discarded), and
the partial standard output is retained, truncated per policy. -/
theorem run_timeout_keeps_stdout (r : Runner) (res : String → Bool)
    (fmtDur : Nat → String) (ex : Task → ExecOutcome) (task : Task)
    (helig : (CanRun r res task).1 = true) (ht : (ex task).timedOut = true) :
    Run r res fmtDur ex task =
      { Name := task.Name, Command := task.Command, Category := task.Category,
        Status := .Failed,
        Output := truncateOutput (ex task).stdout task.MaxLines task.MaxBytes,
        Error := "Command timed out after " ++ fmtDur r.Timeout,
        Duration := (ex task).duration, SkipReason := "" } := by
  rcases hcr : CanRun r res task with ⟨b, reason⟩
  rw [hcr] at helig
  subst helig
  simp only [Run, hcr, Bool.not_true, Bool.false_eq_true, if_false, ht, if_true]

/-- C8 witness: the amended timeout behaviour at the concrete timed-out
execution. -/
theorem run_timeout_keeps_stdout_witness :
    Run runnerNR resolveAll fmtDur30 exTimeout tPlain =
      { Name := tPlain.Name, Command := tPlain.Command, Category := tPlain.Category,
        Status := .Failed,
        Output := truncateOutput (exTimeout tPlain).stdout tPlain.MaxLines tPlain.MaxBytes,
        Error := "Command timed out after " ++ fmtDur30 runnerNR.Timeout,
        Duration := (exTimeout tPlain).duration, SkipReason := "" } :=
  run_timeout_keeps_stdout runnerNR resolveAll fmtDur30 exTimeout tPlain
    (by decide) (by decide)

/-- C5: an ineligible task is returned as Skipped with the filter's reason,
the execution stage untouched, and the result does not depend on the
subprocess-execution oracle at all (no subprocess is spawned). -/
theorem run_skips_ineligible (r : Runner) (res : String → Bool)
    (fmtDur : Nat → String) (task : Task)
    (h : (CanRun r res task).1 = false) :
    (∀ ex : Task → ExecOutcome,
      Run r res fmtDur ex task =
        { Name := task.Name, Command := task.Command, Category := task.Category,
          Status := .Skipped, Output := "", Error := "", Duration := 0,
          SkipReason := (CanRun r res task).2 })
    ∧ ∀ ex ex2 : Task → ExecOutcome, Run r res fmtDur ex task = Run r res fmtDur ex2 task := by
  rcases hcr : CanRun r res task with ⟨b, reason⟩
  rw [hcr] at h
  subst h
  constructor
  · intro ex
    simp only [Run, hcr, Bool.not_false, if_true]
  · intro ex ex2
    simp only [Run, hcr, Bool.not_false, if_true]

/-- C5 witness: a sudo task under the non-elevated descriptor is skipped
with the privilege reason, independently of the execution oracle. -/
theorem run_skips_ineligible_witness :
    Run runnerNR resolveAll fmtDur30 exTimeout sudoTask =
      { Name := sudoTask.Name, Command := sudoTask.Command, Category := sudoTask.Category,
        Status := .Skipped, Output := "", Error := "", Duration := 0,
        SkipReason := (CanRun runnerNR resolveAll sudoTask).2 } :=
  (run_skips_ineligible runnerNR resolveAll fmtDur30 sudoTask (by decide)).1 exTimeout

/-- `CanRun` either accepts with an empty reason or rejects with a
non-empty one. -/
theorem canRun_cases (r : Runner) (res : String → Bool) (task : Task) :
    CanRun r res task = (true, "")
    ∨ ((CanRun r res task).1 = false ∧ (CanRun r res task).2 ≠ "") := by
  unfold CanRun
  split
  · right
    exact ⟨rfl, by decide⟩
  · split
    · right
      exact ⟨rfl, append_ne_empty_left _ _ (by decide)⟩
    · split
      · right
        exact ⟨rfl, append_ne_empty_left _ _ (by decide)⟩
      · left
        rfl

/-- C6: every result of `Run` has status Success, Skipped or Failed (never
Pending or Running), and its skip reason is non-empty exactly when the
status is Skipped. -/
theorem run_status_skipReason (r : Runner) (res : String → Bool)
    (fmtDur : Nat → String) (ex : Task → ExecOutcome) (task : Task) :
    ((Run r res fmtDur ex task).Status = .Success
      ∨ (Run r res fmtDur ex task).Status = .Skipped
      ∨ (Run r res fmtDur ex task).Status = .Failed)
    ∧ (¬(Run r res fmtDur ex task).SkipReason = "" ↔
        (Run r res fmtDur ex task).Status = .Skipped) := by
  rcases canRun_cases r res task with hcr | ⟨h1, h2⟩
  · by_cases ht : (ex task).timedOut
    · simp [Run, hcr, ht]
    · cases hm : (ex task).errMsg <;> simp [Run, hcr, ht, hm]
  · rcases hcr : CanRun r res task with ⟨b, reason⟩
    rw [hcr] at h1 h2
    simp only at h1
    subst h1
    simp only at h2
    simp [Run, hcr, h2]

/-- C6 witness: the invariant at a concrete timed-out execution. -/
theorem run_status_skipReason_witness :
    ((Run runnerNR resolveAll fmtDur30 exTimeout tPlain).Status = .Success
      ∨ (Run runnerNR resolveAll fmtDur30 exTimeout tPlain).Status = .Skipped
      ∨ (Run runnerNR resolveAll fmtDur30 exTimeout tPlain).Status = .Failed)
    ∧ (¬(Run runnerNR resolveAll fmtDur30 exTimeout tPlain).SkipReason = "" ↔
        (Run runnerNR resolveAll fmtDur30 exTimeout tPlain).Status = .Skipped) :=
  run_status_skipReason runnerNR resolveAll fmtDur30 exTimeout tPlain

/-- `firstMissing` finds nothing on a fully resolvable dependency list. -/
theorem firstMissing_all (res : String → Bool) (l : List String)
    (h : ∀ x ∈ l, res x = true) : firstMissing res l = none := by
  induction l with
  | nil => rfl
  | cons a as ih =>
    rw [firstMissing, h a (by simp)]
    simpa using ih fun x hx => h x (by simp [hx])

/-- `firstMissing` reports the first unresolvable name, whatever follows
it. -/
theorem firstMissing_first (res : String → Bool) (pre : List String)
    (h : ∀ x ∈ pre, res x = true) (miss : String) (rest : List String)
    (hm : res miss = false) :
    firstMissing res (pre ++ miss :: rest) = some miss := by
  induction pre with
  | nil => simp [firstMissing, hm]
  | cons a as ih =>
    rw [List.cons_append, firstMissing, h a (by simp)]
    simpa using ih fun x hx => h x (by simp [hx])

/-- C4: the eligibility checks run in precedence order — privilege first,
then dependencies in declaration order with the first missing binary named
in the reason and the rest unchecked, then tags with the reason listing the
required tags — and a task with no privilege requirement, no dependencies
and no tags is eligible with an empty reason. -/
theorem canRun_precedence (r : Runner) (res : String → Bool) (task : Task) :
    (task.Privilege = "sudo" → r.Platform.IsRoot = false →
      CanRun r res task = (false, "Requires sudo privileges"))
    ∧ ((task.Privilege = "sudo" → r.Platform.IsRoot = true) →
      ∀ pre miss rest, task.Requires = pre ++ miss :: rest →
        (∀ x ∈ pre, res x = true) → res miss = false →
        CanRun r res task = (false, "Missing dependency: " ++ miss))
    ∧ ((task.Privilege = "sudo" → r.Platform.IsRoot = true) →
      (∀ x ∈ task.Requires, res x = true) →
      task.Tags ≠ [] → MatchesTags r.Platform task.Tags = false →
      CanRun r res task = (false, "Environment mismatch: requires " ++ joinSep " or " task.Tags))
    ∧ (task.Privilege = "" → task.Requires = [] → task.Tags = [] →
      CanRun r res task = (true, "")) := by
  refine ⟨?_, ?_, ?_, ?_⟩
  · intro h1 h2
    simp [CanRun, h1, h2]
  · intro hpriv pre miss rest hreq hres hmiss
    have hcond : (decide (task.Privilege = "sudo") && !r.Platform.IsRoot) = false := by
      by_cases hp : task.Privilege = "sudo" <;> simp [hp]
      exact hpriv hp
    rw [CanRun]
    simp only [hcond, Bool.false_eq_true, if_false, hreq,
      firstMissing_first res pre hres miss rest hmiss]
  · intro hpriv hall htags hmt
    have hcond : (decide (task.Privilege = "sudo") && !r.Platform.IsRoot) = false := by
      by_cases hp : task.Privilege = "sudo" <;> simp [hp]
      exact hpriv hp
    have hlen : (0 < task.Tags.length) := List.length_pos.mpr htags
    rw [CanRun]
    simp [hcond, firstMissing_all res _ hall, hmt, hlen]
  · intro h1 h2 h3
    simp [CanRun, h1, h2, h3, firstMissing]

/-- C4 witness: the privilege check at a sudo task under the non-elevated
descriptor. -/
theorem canRun_precedence_witness :
    CanRun runnerNR resolveAll sudoTask = (false, "Requires sudo privileges") :=
  (canRun_precedence runnerNR resolveAll sudoTask).1 rfl rfl

/-- Folding index-addressed writes preserves the array length. -/
theorem length_foldl_set (f : Nat → TaskResult) (order : List Nat)
    (init : List TaskResult) :
    (order.foldl (fun rs idx => rs.set idx (f idx)) init).length = init.length := by
  induction order generalizing init with
  | nil => rfl
  | cons idx rest ih => rw [List.foldl_cons, ih, List.length_set]

/-- After folding index-addressed writes, an in-range slot holds the value
written for its own index whenever that index was processed, and its
initial value otherwise — regardless of the processing order. -/
theorem getElem?_foldl_set (f : Nat → TaskResult) (order : List Nat)
    (init : List TaskResult) (i : Nat) (hi : i < init.length) :
    (order.foldl (fun rs idx => rs.set idx (f idx)) init)[i]? =
      if i ∈ order then some (f i) else init[i]? := by
  induction order generalizing init with
  | nil => simp
  | cons idx rest ih =>
    rw [List.foldl_cons, ih _ (by simpa using hi)]
    by_cases hmem : i ∈ rest
    · simp [hmem]
    · by_cases heq : i = idx
      · subst heq
        simp [hmem, List.getElem?_set_self hi]
      · simp [hmem, heq, List.getElem?_set_ne (Ne.symm heq)]

/-- C3: the index-addressed scheduler fills one slot per task, slot `i`
holding the runner's result for task `i`, whatever order the worker pool
processes the indices in (any permutation of `0..N-1`), for every `N ≥ 0`
including the empty task list. -/
theorem runWithoutUI_ordered (tasks : List Task) (run : Task → TaskResult)
    (order : List Nat) (h : order.Perm (List.range tasks.length)) :
    runWithoutUI tasks run order = tasks.map run := by
  apply List.ext_getElem?
  intro i
  by_cases hi : i < tasks.length
  · rw [runWithoutUI, getElem?_foldl_set _ _ _ _ (by simpa using hi)]
    have hmem : i ∈ order := h.mem_iff.mpr (List.mem_range.mpr hi)
    rw [if_pos hmem, List.getElem?_map, List.getElem?_eq_getElem hi]
    simp [List.getD_eq_getElem?_getD, List.getElem?_eq_getElem hi]
  · have hlen : (runWithoutUI tasks run order).length = tasks.length := by
      rw [runWithoutUI, length_foldl_set, List.length_replicate]
    rw [List.getElem?_eq_none (by omega), List.getElem?_eq_none (by simpa using hi)]

/-- C3 witness: two tasks completed in reversed order still land in input
order, and the empty task list yields the empty result list. -/
theorem runWithoutUI_ordered_witness :
    runWithoutUI [sudoTask, tPlain]
        (fun t => { emptyResult with Name := t.Name, Status := .Success }) [1, 0] =
      [{ emptyResult with Name := sudoTask.Name, Status := .Success },
       { emptyResult with Name := tPlain.Name, Status := .Success }]
    ∧ runWithoutUI [] (fun t => { emptyResult with Name := t.Name, Status := .Success }) [] =
        [] :=
  ⟨runWithoutUI_ordered [sudoTask, tPlain] _ [1, 0] (by decide),
   runWithoutUI_ordered [] _ [] (by decide)⟩

/-- `hasPrefixChars` decides the prefix relation. -/
theorem hasPrefixChars_iff (a b : List Char) :
    hasPrefixChars a b = true ↔ a <+: b := by
  induction a generalizing b with
  | nil => simp [hasPrefixChars]
  | cons x xs ih =>
    cases b with
    | nil => simp [hasPrefixChars]
    | cons y ys => simp [hasPrefixChars, ih]

/-- `containsChars` decides the contiguous-substring (infix) relation. -/
theorem containsChars_iff (sub s : List Char) :
    containsChars sub s = true ↔ sub <:+: s := by
  induction s with
  | nil => simp [containsChars, hasPrefixChars_iff]
  | cons c cs ih =>
    rw [containsChars, Bool.or_eq_true, hasPrefixChars_iff, ih, List.infix_cons_iff]

/-- C7, amended: a manifest source is loaded exactly when it declares no
platform, or its lowercased declared platform occurs as a contiguous
substring (anywhere, not only as a prefix) of the lowercased distribution
identifier — which subsumes case-insensitive equality — or it declares the
generic "linux" name while the operating system is linux; `LoadAll` keeps
exactly the matching sources. -/
theorem matchesPlatform_iff (p : Platform) (profile : Profile) :
    (matchesPlatform p profile = true ↔
      profile.Platform = "" ∨
      (goToLower profile.Platform).data <:+: (goToLower p.DistroID).data ∨
      (goToLower profile.Platform = "linux" ∧ p.OS = "linux"))
    ∧ ∀ profiles : List Profile,
        profile ∈ LoadAll p profiles ↔
          profile ∈ profiles ∧ matchesPlatform p profile = true := by
  constructor
  · rw [matchesPlatform]
    split
    · simp [*]
    · rename_i hne
      simp only [hne, false_or]
      split
      · rename_i heq
        simp only [true_iff]
        left
        rw [heq]
      · split
        · rename_i hcont
          rw [strContains] at hcont
          simp [(containsChars_iff _ _).mp hcont]
        · split
          · rename_i hlin
            simp only [Bool.and_eq_true, decide_eq_true_eq] at hlin
            simp [hlin.1, hlin.2]
          · rename_i hneq hcont hlin
            simp only [Bool.false_eq_true, false_iff]
            rintro (hinf | ⟨he, ho⟩)
            · exact hcont (by rw [strContains]; exact (containsChars_iff _ _).mpr hinf)
            · exact hlin (by simp [he, ho])
  · intro profiles
    simp [LoadAll, List.mem_filter]

/-- C7 witness (amended claim at concrete inputs): a coarse "arch" source
is loaded for the "arch_linux" identifier. -/
theorem matchesPlatform_iff_witness :
    matchesPlatform archPlat
      { Name := "arch", Description := "", Platform := "arch", Tasks := [] } = true :=
  (matchesPlatform_iff archPlat _).1.mpr (Or.inr (Or.inl (by decide)))

/-- Characters with equal code points are equal. -/
theorem charEq_of_toNat {a b : Char} (h : a.toNat = b.toNat) : a = b :=
  Char.ext (UInt32.ext h)

/-- The lexicographic comparison is irreflexive. -/
theorem lexLt_irrefl (a : List Char) : lexLtChars a a = false := by
  induction a with
  | nil => rfl
  | cons x xs ih => simp [lexLtChars, Nat.lt_irrefl, ih]

/-- The lexicographic comparison is trichotomous. -/
theorem lexLt_total (a b : List Char) :
    lexLtChars a b = true ∨ lexLtChars b a = true ∨ a = b := by
  induction a generalizing b with
  | nil => cases b <;> simp [lexLtChars]
  | cons x xs ih =>
    cases b with
    | nil => simp [lexLtChars]
    | cons y ys =>
      by_cases h1 : x.toNat < y.toNat
      · left
        simp [lexLtChars, h1]
      · by_cases h2 : y.toNat < x.toNat
        · right
          left
          simp [lexLtChars, h2]
        · have hxy : x = y := charEq_of_toNat (by omega)
          subst hxy
          rcases ih ys with h | h | h
          · left
            simp [lexLtChars, Nat.lt_irrefl, h]
          · right
            left
            simp [lexLtChars, Nat.lt_irrefl, h]
          · right
            right
            rw [h]

/-- The lexicographic comparison is transitive. -/
theorem lexLt_trans {a b c : List Char} (h1 : lexLtChars a b = true)
    (h2 : lexLtChars b c = true) : lexLtChars a c = true := by
  induction a generalizing b c with
  | nil =>
    cases b with
    | nil => simp [lexLtChars] at h1
    | cons y ys =>
      cases c with
      | nil => simp [lexLtChars] at h2
      | cons z zs => simp [lexLtChars]
  | cons x xs ih =>
    cases b with
    | nil => simp [lexLtChars] at h1
    | cons y ys =>
      cases c with
      | nil => simp [lexLtChars] at h2
      | cons z zs =>
        simp only [lexLtChars] at h1 h2 ⊢
        by_cases hxy : x.toNat < y.toNat
        · by_cases hyz : y.toNat < z.toNat
          · simp [Nat.lt_trans hxy hyz]
          · by_cases hzy : z.toNat < y.toNat
            · simp [hyz, hzy] at h2
            · simp [show x.toNat < z.toNat by omega]
        · by_cases hyx : y.toNat < x.toNat
          · simp [hxy, hyx] at h1
          · by_cases hyz : y.toNat < z.toNat
            · simp [show x.toNat < z.toNat by omega]
            · by_cases hzy : z.toNat < y.toNat
              · simp [hyz, hzy] at h2
              · simp only [hxy, hyx, if_false] at h1
                simp only [hyz, hzy, if_false] at h2
                have hlt := ih h1 h2
                simp [show ¬x.toNat < z.toNat by omega, show ¬z.toNat < x.toNat by omega, hlt]

/-- `GoLe` is total. -/
instance : IsTotal String GoLe := by
  constructor
  intro a b
  rcases lexLt_total a.data b.data with h | h | h
  · left
    rw [GoLe, goStrLe, goStrLt, Bool.not_eq_true']
    cases hb : lexLtChars b.data a.data with
    | false => rfl
    | true =>
      have := lexLt_trans h hb
      rw [lexLt_irrefl] at this
      exact absurd this (by simp)
  · right
    rw [GoLe, goStrLe, goStrLt, Bool.not_eq_true']
    cases hb : lexLtChars a.data b.data with
    | false => rfl
    | true =>
      have := lexLt_trans h hb
      rw [lexLt_irrefl] at this
      exact absurd this (by simp)
  · left
    rw [GoLe, goStrLe, goStrLt, Bool.not_eq_true', h, lexLt_irrefl]

/-- `GoLe` is transitive. -/
instance : IsTrans String GoLe := by
  constructor
  intro a b c hab hbc
  rw [GoLe, goStrLe, goStrLt, Bool.not_eq_true'] at hab hbc ⊢
  cases hb : lexLtChars c.data a.data with
  | false => rfl
  | true =>
    exfalso
    rcases lexLt_total a.data b.data with h | h | h
    · have := lexLt_trans hb h
      rw [hbc] at this
      exact absurd this (by simp)
    · rw [hab] at h
      exact absurd h (by simp)
    · rw [h] at hb
      rw [hbc] at hb
      exact absurd hb (by simp)

/-- Membership in `groupByCategory`'s first-occurrence label list. -/
theorem mem_categoryOrderOf_loop (cats : List String) (acc : List String) (c : String) :
    (c ∈ cats.foldl (fun a x => if x ∈ a then a else a ++ [x]) acc) ↔
      c ∈ acc ∨ c ∈ cats := by
  induction cats generalizing acc with
  | nil => simp
  | cons d ds ih =>
    rw [List.foldl_cons]
    by_cases hd : d ∈ acc
    · rw [if_pos hd, ih]
      simp only [List.mem_cons]
      constructor
      · rintro (h | h)
        exacts [Or.inl h, Or.inr (Or.inr h)]
      · rintro (h | h | h)
        exacts [Or.inl h, Or.inl (h ▸ hd), Or.inr h]
    · rw [if_neg hd, ih]
      simp only [List.mem_append, List.mem_cons, List.mem_singleton]
      tauto

/-- The first-occurrence label list has no duplicates. -/
theorem nodup_categoryOrderOf_loop (cats : List String) (acc : List String)
    (h : acc.Nodup) :
    (cats.foldl (fun a x => if x ∈ a then a else a ++ [x]) acc).Nodup := by
  induction cats generalizing acc with
  | nil => exact h
  | cons d ds ih =>
    rw [List.foldl_cons]
    by_cases hd : d ∈ acc
    · rw [if_pos hd]
      exact ih _ h
    · rw [if_neg hd]
      refine ih _ ?_
      rw [List.nodup_append]
      refine ⟨h, List.nodup_singleton d, ?_⟩
      intro a ha hm
      rw [List.mem_singleton] at hm
      exact hd (hm ▸ ha)

/-- The section labels are exactly the sorted first-occurrence labels. -/
theorem groupByCategory_keys (results : List TaskResult) :
    (groupByCategory results).map Prod.fst =
      List.insertionSort GoLe (categoryOrderOf (results.map catName)) := by
  simp only [groupByCategory, List.map_map]
  exact List.map_id'' (fun n => rfl) _

/-- C2, amended: category sections are keyed by Go title-casing of the
category (upper-casing only the first letter of each word — so "network"
and "Network" fold into one "Network" section while "NETWORK" stays its
own section), with unset categories under "General"; the labels are
pairwise distinct, sorted lexicographically, range over exactly the
occurring labels, and each section carries exactly its label's results in
original order. -/
theorem groupByCategory_spec (results : List TaskResult) :
    ((groupByCategory results).map Prod.fst).Sorted GoLe
    ∧ ((groupByCategory results).map Prod.fst).Nodup
    ∧ (∀ n, n ∈ (groupByCategory results).map Prod.fst ↔ n ∈ results.map catName)
    ∧ (∀ g ∈ groupByCategory results, g.2 = results.filter fun r => catName r = g.1)
    ∧ ∀ r : TaskResult, r.Category = "" → catName r = "General" := by
  refine ⟨?_, ?_, ?_, ?_, ?_⟩
  · rw [groupByCategory_keys]
    exact List.sorted_insertionSort GoLe _
  · rw [groupByCategory_keys]
    rw [(List.perm_insertionSort GoLe _).nodup_iff]
    exact nodup_categoryOrderOf_loop _ _ List.nodup_nil
  · intro n
    rw [groupByCategory_keys, (List.perm_insertionSort GoLe _).mem_iff,
      categoryOrderOf, mem_categoryOrderOf_loop]
    simp
  · intro g hg
    rw [groupByCategory] at hg
    simp only [List.mem_map] at hg
    obtain ⟨n, _, rfl⟩ := hg
    rfl
  · intro r hr
    simp only [catName, hr, if_pos]
    decide

/-- C2 witness: the amended grouping at the two concrete network results. -/
theorem groupByCategory_spec_witness :
    ((groupByCategory [netResult, netResultUpper]).map Prod.fst).Sorted GoLe :=
  (groupByCategory_spec [netResult, netResultUpper]).1

/-- The single-pass partition of `writeErrorsSection` equals the two
status filters, whatever is already accumulated. -/
theorem partitionES_loop (results : List TaskResult)
    (acc : List TaskResult × List TaskResult) :
    results.foldl
        (fun acc r =>
          match r.Status with
          | .Failed => (acc.1 ++ [r], acc.2)
          | .Skipped => (acc.1, acc.2 ++ [r])
          | _ => acc) acc =
      (acc.1 ++ results.filter (fun r => r.Status = .Failed),
       acc.2 ++ results.filter (fun r => r.Status = .Skipped)) := by
  induction results generalizing acc with
  | nil => simp
  | cons r rest ih =>
    rw [List.foldl_cons, ih]
    cases hs : r.Status <;> simp [List.filter_cons, hs]

/-- `partitionES` is the pair of status filters. -/
theorem partitionES_eq (results : List TaskResult) :
    partitionES results =
      (results.filter (fun r => r.Status = .Failed),
       results.filter (fun r => r.Status = .Skipped)) := by
  rw [partitionES, partitionES_loop]
  simp

/-- C10: the "Errors & Skipped" section is empty exactly when no result is
Failed or Skipped (in which case the Full document is just the category
sections, the heading omitted); otherwise it is the heading followed by
all Failed results and then all Skipped results, each group in original
result order. -/
theorem errorsSection_spec (results : List TaskResult) :
    (writeErrorsSection results = "" ↔
      ∀ x ∈ results, x.Status ≠ .Failed ∧ x.Status ≠ .Skipped)
    ∧ ((∃ x ∈ results, x.Status = .Failed ∨ x.Status = .Skipped) →
      writeErrorsSection results =
        "\n## Errors & Skipped\n\n" ++
          String.join ((results.filter fun x => x.Status = .Failed).map failLine) ++
          String.join ((results.filter fun x => x.Status = .Skipped).map skipLine))
    ∧ ∀ rep : MarkdownReport, rep.Results = results →
        (∀ x ∈ results, x.Status ≠ .Failed ∧ x.Status ≠ .Skipped) →
        generateContent rep = categoriesRender results := by
  have hpe := partitionES_eq results
  have hmem : ((results.filter fun x => x.Status = .Failed).length = 0 ∧
      (results.filter fun x => x.Status = .Skipped).length = 0) ↔
      ∀ x ∈ results, x.Status ≠ .Failed ∧ x.Status ≠ .Skipped := by
    rw [List.length_eq_zero, List.length_eq_zero, List.filter_eq_nil_iff,
      List.filter_eq_nil_iff]
    simp only [decide_eq_true_eq]
    constructor
    · rintro ⟨h1, h2⟩ x hx
      exact ⟨h1 x hx, h2 x hx⟩
    · intro h
      exact ⟨fun x hx => (h x hx).1, fun x hx => (h x hx).2⟩
  have hval : ∀ hc : ¬((results.filter fun x => x.Status = .Failed).length = 0 ∧
      (results.filter fun x => x.Status = .Skipped).length = 0),
      writeErrorsSection results =
        "\n## Errors & Skipped\n\n" ++
          String.join ((results.filter fun x => x.Status = .Failed).map failLine) ++
          String.join ((results.filter fun x => x.Status = .Skipped).map skipLine) := by
    intro hc
    simp only [writeErrorsSection, hpe]
    rw [if_neg hc]
  refine ⟨?_, ?_, ?_⟩
  · by_cases hc : (results.filter fun x => x.Status = .Failed).length = 0 ∧
        (results.filter fun x => x.Status = .Skipped).length = 0
    · refine iff_of_true ?_ (hmem.mp hc)
      simp only [writeErrorsSection, hpe]
      rw [if_pos hc]
    · refine iff_of_false ?_ fun hr => hc (hmem.mpr hr)
      rw [hval hc, String.append_assoc]
      exact append_ne_empty_left "\n## Errors & Skipped\n\n" _ (by decide)
  · intro hex
    have hc : ¬((results.filter fun x => x.Status = .Failed).length = 0 ∧
        (results.filter fun x => x.Status = .Skipped).length = 0) := by
      intro hc
      rcases hex with ⟨x, hx, hor⟩
      rcases hmem.mp hc x hx with ⟨h1, h2⟩
      rcases hor with h | h
      exacts [h1 h, h2 h]
    exact hval hc
  · intro rep hrep hall
    have hc : (results.filter fun x => x.Status = .Failed).length = 0 ∧
        (results.filter fun x => x.Status = .Skipped).length = 0 := hmem.mpr hall
    rw [generateContent, hrep]
    have hz : writeErrorsSection results = "" := by
      simp only [writeErrorsSection, hpe]
      rw [if_pos hc]
    rw [hz, String.append_empty]

/-- C10 witness: the section at one concrete failed result, and its
omission on a success-only list. -/
theorem errorsSection_spec_witness :
    writeErrorsSection [failedR] =
      "\n## Errors & Skipped\n\n- **f**: Failed (err)\n" := by
  rw [(errorsSection_spec [failedR]).2.1 ⟨failedR, by simp, Or.inl rfl⟩]
  decide

end SysProbe
